import Mathlib

/-!
Shallow embedding of the chess component in `src/react-chess-game-features.tsx`.

Coordinates are JavaScript array indices, modelled as `Int` because the source
freely forms `row + direction`, `col - 1`, `row - i`, which can be negative.
A JS array read `xs[i]` with `i` out of range yields `undefined`; we model a
board cell read that merges `undefined` and `null` (every use in the source
treats them alike, via `!piece` or optional chaining) as `Option Piece = none`.
Reading `board[r][c]` when `board[r]` itself is `undefined` throws a
`TypeError`; functions that can perform such a read return `Option _`, with
`none` standing for the thrown exception.
-/

inductive PieceType
  | pawn | rook | knight | bishop | queen | king
deriving DecidableEq, Repr

inductive PieceColor
  | white | black
deriving DecidableEq, Repr

structure Piece where
  type : PieceType
  color : PieceColor
deriving DecidableEq, Repr

abbrev Board := List (List (Option Piece))

/-- JS array indexing `xs[i]`: `undefined` (here `none`) when `i` is negative
or past the end. -/
def idx {α : Type} (xs : List α) (i : Int) : Option α :=
  if i < 0 then none else xs.get? i.toNat

/-- `board[r]`: the row array, or `undefined` (`none`) when off the board. -/
def getRow (b : Board) (r : Int) : Option (List (Option Piece)) := idx b r

/-- `row[c]` flattening JS `null` and `undefined` into `none`; every use in
the source treats the two alike. -/
def cellAt (rw : List (Option Piece)) (c : Int) : Option Piece := (idx rw c).join

/-- `board[r]?.[c]` — the optional-chained cell read, safe at any indices. -/
def get2 (b : Board) (r c : Int) : Option Piece :=
  (getRow b r).bind (fun rw => cellAt rw c)

/-- Source `isValidMove` (lines 94-103).  The read `board[toRow][toCol]?.color`
does not guard the first index, so an off-board `toRow` throws a `TypeError`
(result `none`); likewise for `board[fromRow][fromCol]` when `fromRow` is off
the board.  Otherwise: `false` when the source square is empty, when the piece
there is not the current player's, or when the destination holds a friendly
piece; else membership of the destination in the `availableMoves` state. -/
def isValidMove (b : Board) (cp : PieceColor) (avail : List (Int × Int))
    (fr fc tr tc : Int) : Option Bool :=
  match getRow b fr with
  | none => none
  | some rw =>
    match cellAt rw fc with
    | none => some false
    | some piece =>
      if piece.color ≠ cp then some false
      else
        match getRow b tr with
        | none => none
        | some trw =>
          if (cellAt trw tc).map Piece.color = some cp then some false
          else some (avail.any (fun rc => decide (rc.1 = tr) && decide (rc.2 = tc)))

/-- The rook loop body (lines 81-86): walk the candidate list in push order,
keeping a candidate when `isValidMove` says `true`; a thrown `TypeError`
(`none`) aborts the whole computation, as the exception propagates. -/
def pushCands (b : Board) (cp : PieceColor) (avail : List (Int × Int))
    (fr fc : Int) : List (Int × Int) → Option (List (Int × Int))
  | [] => some []
  | t :: ts =>
    match isValidMove b cp avail fr fc t.1 t.2 with
    | none => none
    | some true => (pushCands b cp avail fr fc ts).map (fun ms => t :: ms)
    | some false => pushCands b cp avail fr fc ts

/-- The rook candidate squares in the source's evaluation order:
for `i = 1..7`, `(row+i,col)`, `(row-i,col)`, `(row,col+i)`, `(row,col-i)`. -/
def rookCands (row col : Int) : List (Int × Int) :=
  (List.range 7).flatMap (fun k =>
    [(row + ((k : Int) + 1), col), (row - ((k : Int) + 1), col),
     (row, col + ((k : Int) + 1)), (row, col - ((k : Int) + 1))])

/-- JS `board[r]?.[c]?.color !== piece.color`: true when the cell is empty or
off the board (`undefined !== color`) or holds an opponent piece — the
condition the source uses to push a pawn's diagonal "capture". -/
def capCond (cell : Option Piece) (c : PieceColor) : Bool :=
  decide (¬ cell.map Piece.color = some c)

/-- The final bounds filter of `getAvailableMoves` (line 91). -/
def inBounds (rc : Int × Int) : Bool :=
  decide (0 ≤ rc.1 ∧ rc.1 < 8 ∧ 0 ≤ rc.2 ∧ rc.2 < 8)

/-- The `switch (piece.type)` body of `getAvailableMoves` (lines 69-89):
only pawn and rook are implemented; every other piece kind falls through the
`switch` with no moves.  The pawn arm pushes, in order: one forward if the
destination is empty (`!board[row+d]?.[col]`), two forward from the starting
rank if *only the destination* is empty, then the two diagonals whenever the
diagonal cell's color differs from the pawn's (which includes empty and
off-board cells).  The rook arm calls `isValidMove` on each candidate;
`none` models the `TypeError` thrown by `board[toRow][toCol]` on an
off-board `toRow`. -/
def movesCore (b : Board) (cp : PieceColor) (avail : List (Int × Int))
    (row col : Int) (piece : Piece) : Option (List (Int × Int)) :=
  match piece.type with
  | PieceType.pawn =>
    let d : Int := if piece.color = PieceColor.white then -1 else 1
    let m1 := if (get2 b (row + d) col).isNone then [(row + d, col)] else []
    let m2 :=
      if (row = 1 ∧ piece.color = PieceColor.black) ∨
         (row = 6 ∧ piece.color = PieceColor.white) then
        (if (get2 b (row + 2 * d) col).isNone then [(row + 2 * d, col)] else [])
      else []
    let c1 := if capCond (get2 b (row + d) (col - 1)) piece.color then
                [(row + d, col - 1)] else []
    let c2 := if capCond (get2 b (row + d) (col + 1)) piece.color then
                [(row + d, col + 1)] else []
    some (m1 ++ m2 ++ c1 ++ c2)
  | PieceType.rook => pushCands b cp avail row col (rookCands row col)
  | _ => some []

/-- Source `getAvailableMoves` (lines 61-92): read `board[row][col]`
(throwing, i.e. `none`, when `row` is off the board; empty square giving no
moves), dispatch on the piece kind, then apply the bounds filter of line 91. -/
def getAvailableMoves (b : Board) (cp : PieceColor) (avail : List (Int × Int))
    (row col : Int) : Option (List (Int × Int)) :=
  match getRow b row with
  | none => none
  | some rw =>
    match cellAt rw col with
    | none => some []
    | some piece =>
      (movesCore b cp avail row col piece).map (fun ms => ms.filter inBounds)

/-- Functional board-cell update, mirroring `newBoard[r][c] = v` performed on
the fresh copy `board.map(row => [...row])`; out-of-range writes never occur
in the source's calls, so they are modelled as no-ops. -/
def setCell (b : Board) (r c : Int) (v : Option Piece) : Board :=
  if r < 0 ∨ c < 0 then b
  else
    match b.get? r.toNat with
    | none => b
    | some rw => b.set r.toNat (rw.set c.toNat v)

/-- The board successor built by `handleSquareClick` (lines 108-110) and
`makeComputerMove` (lines 138-140): copy the board, write the source cell's
content to the destination, then clear the source cell. -/
def applyMove (b : Board) (fr fc tr tc : Int) : Board :=
  setCell (setCell b tr tc (get2 b fr fc)) fr fc none

/-- The move-history entry format of both movers. -/
def moveString (fr fc tr tc : Int) : String := s!"{fr},{fc} to {tr},{tc}"

/-- The 64 board squares in the scan order of `makeComputerMove`. -/
def allSquares : List (Int × Int) :=
  (List.range 8).flatMap (fun i => (List.range 8).map (fun j => ((i : Int), (j : Int))))

/-- The `possibleMoves` accumulation of `makeComputerMove` (lines 127-135):
for each square holding a black piece, append that square's available moves
tagged with the origin; a `TypeError` from `getAvailableMoves` propagates. -/
def collectBlackMoves (b : Board) (cp : PieceColor) (avail : List (Int × Int)) :
    List (Int × Int) → Option (List (Int × Int × Int × Int))
  | [] => some []
  | sq :: rest =>
    if (get2 b sq.1 sq.2).map Piece.color = some PieceColor.black then
      match getAvailableMoves b cp avail sq.1 sq.2 with
      | none => none
      | some ms =>
        (collectBlackMoves b cp avail rest).map
          (fun more => ms.map (fun rc => (sq.1, sq.2, rc.1, rc.2)) ++ more)
    else collectBlackMoves b cp avail rest

/-- Source `makeComputerMove` (lines 124-145).  `rand` stands for the index
`Math.floor(Math.random() * length)`; any `rand` reduced mod the list length
realises the uniform choice.  When `possibleMoves` is empty the source's
`if` is skipped and nothing at all happens: state unchanged, no error.
`none` models the `TypeError` thrown while scanning (a black rook scanned
while `currentPlayer` is black makes `getAvailableMoves` throw). -/
def makeComputerMove (b : Board) (cp : PieceColor) (avail : List (Int × Int))
    (hist : List String) (rand : Nat) : Option (Board × PieceColor × List String) :=
  match collectBlackMoves b cp avail allSquares with
  | none => none
  | some possible =>
    match possible with
    | [] => some (b, cp, hist)
    | m :: rest =>
      let pm := m :: rest
      let chosen := pm.getD (rand % pm.length) m
      some (applyMove b chosen.1 chosen.2.1 chosen.2.2.1 chosen.2.2.2,
            PieceColor.white,
            hist ++ [moveString chosen.1 chosen.2.1 chosen.2.2.1 chosen.2.2.2])

/-- The persisted record: exactly the fields `saveGame` serialises
(lines 169-176).  JSON round-tripping of this plain record is value-faithful,
and the spec scopes persistence to the logical state, so the store holds the
record itself. -/
structure SavedGame where
  board : Board
  currentPlayer : PieceColor
  moveHistory : List String
deriving DecidableEq, Repr

/-- The component state the save/load pair touches. -/
structure GameUIState where
  board : Board
  currentPlayer : PieceColor
  moveHistory : List String
deriving DecidableEq, Repr

/-- Source `saveGame` (lines 169-176): overwrite the store with the current
board, player and history. -/
def saveGame (st : GameUIState) (_store : Option SavedGame) : Option SavedGame :=
  some ⟨st.board, st.currentPlayer, st.moveHistory⟩

/-- Source `loadGame` (lines 178-186): if a save exists, install its three
fields verbatim — no validation of any kind; otherwise keep the state. -/
def loadGame (st : GameUIState) (store : Option SavedGame) : GameUIState :=
  match store with
  | none => st
  | some s => ⟨s.board, s.currentPlayer, s.moveHistory⟩

/-- Number of kings of a color on a board. -/
def countKings (b : Board) (c : PieceColor) : Nat :=
  (b.map (fun rw =>
    (rw.filter (fun cell => decide (cell = some ⟨PieceType.king, c⟩))).length)).sum

/-- Squares strictly between two columns of one row are all empty. -/
def rowBetweenClear (b : Board) (r c1 c2 : Int) : Bool :=
  (List.range 8).all (fun k =>
    (!decide (min c1 c2 < (k : Int) ∧ (k : Int) < max c1 c2)) ||
      (get2 b r (k : Int)).isNone)

/-- Squares strictly between two rows of one column are all empty. -/
def colBetweenClear (b : Board) (c r1 r2 : Int) : Bool :=
  (List.range 8).all (fun k =>
    (!decide (min r1 r2 < (k : Int) ∧ (k : Int) < max r1 r2)) ||
      (get2 b (k : Int) c).isNone)

/-- A rook-pattern attack: same row or same column, strictly-between squares
empty. -/
def rookAttacks (b : Board) (pr pc tr tc : Int) : Bool :=
  (decide (pr = tr) && !decide (pc = tc) && rowBetweenClear b pr pc tc) ||
  (decide (pc = tc) && !decide (pr = tr) && colBetweenClear b pc pr tr)

/-- The strictly-between squares of a diagonal are all empty. -/
def diagClear (b : Board) (r c dr dc : Int) (dist : Nat) : Bool :=
  (List.range dist).all (fun s =>
    (s == 0) || (get2 b (r + (s : Int) * dr) (c + (s : Int) * dc)).isNone)

/-- A bishop-pattern attack: same diagonal, strictly-between squares empty. -/
def bishopAttacks (b : Board) (pr pc tr tc : Int) : Bool :=
  decide (tr - pr ≠ 0) && decide ((tr - pr).natAbs = (tc - pc).natAbs) &&
    diagClear b pr pc (if tr - pr > 0 then 1 else -1) (if tc - pc > 0 then 1 else -1)
      (tr - pr).natAbs

/-- Modelled from the spec: the source has no attack computation at all; this
is §4.1 `isSquareAttacked`, built from the per-piece movement patterns of
§4.2, with white pawns moving toward decreasing row indices exactly as the
source's pawn `direction` fixes the orientation. -/
def attacks (b : Board) (pr pc : Int) (p : Piece) (tr tc : Int) : Bool :=
  match p.type with
  | PieceType.pawn =>
    let d : Int := if p.color = PieceColor.white then -1 else 1
    decide (tr = pr + d) && (decide (tc = pc - 1) || decide (tc = pc + 1))
  | PieceType.knight =>
    decide (((tr - pr).natAbs = 1 ∧ (tc - pc).natAbs = 2) ∨
            ((tr - pr).natAbs = 2 ∧ (tc - pc).natAbs = 1))
  | PieceType.king =>
    decide (max (tr - pr).natAbs (tc - pc).natAbs = 1)
  | PieceType.rook => rookAttacks b pr pc tr tc
  | PieceType.bishop => bishopAttacks b pr pc tr tc
  | PieceType.queen => rookAttacks b pr pc tr tc || bishopAttacks b pr pc tr tc

/-- Modelled from the spec (§4.1): whether some piece of `byColor` on the
board pseudo-legally attacks the square `(tr, tc)`. -/
def isSquareAttacked (b : Board) (tr tc : Int) (byColor : PieceColor) : Bool :=
  allSquares.any (fun sq =>
    match get2 b sq.1 sq.2 with
    | some p => decide (p.color = byColor) && attacks b sq.1 sq.2 p tr tc
    | none => false)

def emptyRank : List (Option Piece) := List.replicate 8 none

def emptyBoard : Board := List.replicate 8 emptyRank

def backRank (c : PieceColor) : List (Option Piece) :=
  [some ⟨PieceType.rook, c⟩, some ⟨PieceType.knight, c⟩, some ⟨PieceType.bishop, c⟩,
   some ⟨PieceType.queen, c⟩, some ⟨PieceType.king, c⟩, some ⟨PieceType.bishop, c⟩,
   some ⟨PieceType.knight, c⟩, some ⟨PieceType.rook, c⟩]

def pawnRank (c : PieceColor) : List (Option Piece) :=
  List.replicate 8 (some ⟨PieceType.pawn, c⟩)

/-- The source's `initialBoard` (lines 16-40). -/
def initialBoard : Board :=
  [backRank PieceColor.black, pawnRank PieceColor.black,
   emptyRank, emptyRank, emptyRank, emptyRank,
   pawnRank PieceColor.white, backRank PieceColor.white]

/-- An 8×8 board, empty except for a white rook at (3,3). -/
def rookOnlyBoard : Board :=
  setCell emptyBoard 3 3 (some ⟨PieceType.rook, PieceColor.white⟩)

/-- An 8×8 board: black rook at (7,0), white king at (7,4), white pawn at
(6,0) — white's king is in check along row 7 and the pawn cannot fix it. -/
def pinnedKingBoard : Board :=
  setCell (setCell (setCell emptyBoard 7 0 (some ⟨PieceType.rook, PieceColor.black⟩))
      7 4 (some ⟨PieceType.king, PieceColor.white⟩))
    6 0 (some ⟨PieceType.pawn, PieceColor.white⟩)

/-- An 8×8 board: white pawn at (6,0) with a black knight directly in front
of it at (5,0). -/
def blockedPawnBoard : Board :=
  setCell (setCell emptyBoard 6 0 (some ⟨PieceType.pawn, PieceColor.white⟩))
    5 0 (some ⟨PieceType.knight, PieceColor.black⟩)

/-- The starting component state used as a concrete pre-load state. -/
def initState : GameUIState := ⟨initialBoard, PieceColor.white, []⟩

/-- A persisted game whose board has no king of either color. -/
def noKingSave : SavedGame := ⟨emptyBoard, PieceColor.white, []⟩

/-- C2: the claim says pawn moves are exactly forward-if-empty, double from
the start rank with both intervening squares empty, and diagonal only onto an
opponent piece (or en passant).  The code instead pushes a diagonal move onto
the *empty* square (5,1) from the opening position, and from
`blockedPawnBoard` pushes the double advance (4,0) straight over the black
knight standing on (5,0). -/
theorem pawn_moves_violate_pawn_rules :
    getAvailableMoves initialBoard PieceColor.white [] 6 0 =
      some [(5, 0), (4, 0), (5, 1)] ∧
    get2 initialBoard 5 1 = none ∧
    getAvailableMoves blockedPawnBoard PieceColor.white [] 6 0 =
      some [(4, 0), (5, 1)] ∧
    get2 blockedPawnBoard 5 0 = some ⟨PieceType.knight, PieceColor.black⟩ := by
  decide

/-- C3: the claim says rook moves slide until the first occupied square.  On
an otherwise empty board with a single white rook at (3,3) and white to move,
`getAvailableMoves` never returns a move list at all: `isValidMove` evaluates
`board[toRow][toCol]` with `toRow = -1`, throwing a `TypeError` (`none`) —
for any `availableMoves` state; and when the rook is not the side to move the
result is the empty list, not the sliding moves. -/
theorem rook_moves_crash_or_empty :
    getAvailableMoves rookOnlyBoard PieceColor.white [] 3 3 = none ∧
    getAvailableMoves rookOnlyBoard PieceColor.white [(3, 4)] 3 3 = none ∧
    getAvailableMoves rookOnlyBoard PieceColor.black [] 3 3 = some [] := by
  decide

/-- C1: the claim says no generated move leaves the mover's own king
attacked.  On `pinnedKingBoard` (white king on (7,4) in check from the black
rook on (7,0)), the pawn move (6,0)→(5,0) is generated, and after applying it
the white king is still attacked by the rook. -/
theorem generated_move_leaves_king_attacked :
    (5, 0) ∈ (getAvailableMoves pinnedKingBoard PieceColor.white [] 6 0).getD [] ∧
    get2 (applyMove pinnedKingBoard 6 0 5 0) 7 4 =
      some ⟨PieceType.king, PieceColor.white⟩ ∧
    isSquareAttacked (applyMove pinnedKingBoard 6 0 5 0) 7 4 PieceColor.black = true := by
  decide

/-- C5: the claim says the opponent policy fails with `NoLegalMoveError` when
the move set is empty.  On a board with no black pieces the computed
`possibleMoves` list is empty and `makeComputerMove` silently returns the
state unchanged — no error of any kind.  Moreover, invoked with
`currentPlayer = black` on the opening board it does not select any move: the
scan of the black rook at (0,0) throws a `TypeError` (`none`). -/
theorem computer_move_silent_on_empty :
    makeComputerMove emptyBoard PieceColor.white [] [] 0 =
      some (emptyBoard, PieceColor.white, []) ∧
    makeComputerMove initialBoard PieceColor.black [] [] 0 = none := by
  decide

/-- C7 counterexample: the claim says load rejects, with `CorruptSaveError`
and without modifying the current state, any saved board lacking exactly one
king per color.  Loading a save whose board has zero kings of each color
installs it verbatim, replacing the current state. -/
theorem load_accepts_kingless_board :
    countKings emptyBoard PieceColor.white = 0 ∧
    countKings emptyBoard PieceColor.black = 0 ∧
    loadGame initState (some noKingSave) = ⟨emptyBoard, PieceColor.white, []⟩ ∧
    loadGame initState (some noKingSave) ≠ initState := by
  decide

/-- C7 amended: `loadGame` performs no validation at all — any stored game,
whatever its board, replaces the current state verbatim; when no save exists
the current state is kept. -/
theorem load_installs_save_verbatim (st : GameUIState) (s : SavedGame) :
    loadGame st (some s) = ⟨s.board, s.currentPlayer, s.moveHistory⟩ ∧
    loadGame st none = st :=
  ⟨rfl, rfl⟩

/-- C6: saving a game state and then loading reconstructs a state whose
board, side to move and move history equal the original's by value —
whatever state the component is in when load runs and whatever the store
held before the save. -/
theorem save_load_roundtrip (st other : GameUIState) (prior : Option SavedGame) :
    loadGame other (saveGame st prior) = st := by
  cases st
  rfl

theorem idx_bound {α : Type} {xs : List α} {i : Int} {a : α}
    (h : idx xs i = some a) : 0 ≤ i ∧ i.toNat < xs.length := by
  unfold idx at h
  split at h
  · exact absurd h (by simp)
  · next hneg =>
    refine ⟨by omega, ?_⟩
    exact (List.get?_eq_some.mp h).1

theorem getRow_neg {b : Board} {i : Int} (h : i < 0) : getRow b i = none := by
  simp [getRow, idx, h]

theorem getRow_oob_high {b : Board} {i : Int} (h : (b.length : Int) ≤ i) :
    getRow b i = none := by
  unfold getRow idx
  have hnn : ¬ i < 0 := by omega
  rw [if_neg hnn, List.get?_eq_none]
  omega

theorem getAvailableMoves_row_none {b : Board} {cp avail row col}
    (h : getRow b row = none) : getAvailableMoves b cp avail row col = none := by
  simp only [getAvailableMoves, h]

theorem getAvailableMoves_cell_none {b : Board} {cp avail row col rw}
    (hr : getRow b row = some rw) (hc : cellAt rw col = none) :
    getAvailableMoves b cp avail row col = some [] := by
  simp only [getAvailableMoves, hr, hc]

theorem getAvailableMoves_piece {b : Board} {cp avail row col rw piece}
    (hr : getRow b row = some rw) (hc : cellAt rw col = some piece) :
    getAvailableMoves b cp avail row col =
      (movesCore b cp avail row col piece).map (fun ms => ms.filter inBounds) := by
  simp only [getAvailableMoves, hr, hc]

/-- C9: every move returned by `getAvailableMoves` has both coordinates in
[0,7]: the generator ends with the bounds filter of line 91, so any returned
destination is on the board. -/
theorem moves_in_bounds (b : Board) (cp : PieceColor) (avail : List (Int × Int))
    (row col : Int) (ms : List (Int × Int))
    (h : getAvailableMoves b cp avail row col = some ms)
    (m : Int × Int) (hm : m ∈ ms) :
    0 ≤ m.1 ∧ m.1 < 8 ∧ 0 ≤ m.2 ∧ m.2 < 8 := by
  cases hr : getRow b row with
  | none => rw [getAvailableMoves_row_none hr] at h; exact absurd h (by simp)
  | some rw =>
    cases hc : cellAt rw col with
    | none =>
      rw [getAvailableMoves_cell_none hr hc] at h
      obtain rfl : ([] : List (Int × Int)) = ms := by injection h
      cases hm
    | some piece =>
      rw [getAvailableMoves_piece hr hc] at h
      obtain ⟨l, _, hl⟩ := Option.map_eq_some'.mp h
      subst hl
      exact of_decide_eq_true (List.mem_filter.mp hm).2

/-- C9 witness: the opening-position pawn move list for (6,0) contains
(5,0), whose coordinates the theorem bounds. -/
theorem moves_in_bounds_witness :
    0 ≤ ((5, 0) : Int × Int).1 ∧ ((5, 0) : Int × Int).1 < 8 ∧
      0 ≤ ((5, 0) : Int × Int).2 ∧ ((5, 0) : Int × Int).2 < 8 :=
  moves_in_bounds initialBoard PieceColor.white [] 6 0 [(5, 0), (4, 0), (5, 1)]
    (by decide) (5, 0) (by decide)

/-- C10: `isValidMove` rejects a move whenever the source square is empty,
the source piece is not the current player's, or the destination holds a
piece of the current player's color (lines 99-100). -/
theorem isValidMove_rejects (b : Board) (cp : PieceColor)
    (avail : List (Int × Int)) (fr fc tr tc : Int) :
    (∀ rw, getRow b fr = some rw → cellAt rw fc = none →
      isValidMove b cp avail fr fc tr tc = some false) ∧
    (∀ p, get2 b fr fc = some p → p.color ≠ cp →
      isValidMove b cp avail fr fc tr tc = some false) ∧
    (∀ p q, get2 b fr fc = some p → get2 b tr tc = some q → q.color = cp →
      isValidMove b cp avail fr fc tr tc = some false) := by
  refine ⟨?_, ?_, ?_⟩
  · intro rw h1 h2
    simp only [isValidMove, h1, h2]
  · intro p hp hcol
    obtain ⟨rw, hrw, hcell⟩ := Option.bind_eq_some.mp hp
    simp only [isValidMove, hrw, hcell, hcol, if_pos, ne_eq, not_false_iff, ite_true]
  · intro p q hp hq hqc
    obtain ⟨rw, hrw, hcell⟩ := Option.bind_eq_some.mp hp
    obtain ⟨trw, htrw, htcell⟩ := Option.bind_eq_some.mp hq
    by_cases hc : p.color = cp
    · simp only [isValidMove, hrw, hcell, htrw, htcell, hc, ne_eq, not_true, ite_false]
      simp [htcell, hqc]
    · simp [isValidMove, hrw, hcell, hc]

/-- C10 witness: concrete rejections on the opening board — empty source
square (3,0); black rook at (0,0) moved by white; white pawn (6,0) onto the
white rook at (7,0). -/
theorem isValidMove_rejects_witness :
    isValidMove initialBoard PieceColor.white [] 3 0 0 0 = some false ∧
    isValidMove initialBoard PieceColor.white [] 0 0 1 0 = some false ∧
    isValidMove initialBoard PieceColor.white [] 6 0 7 0 = some false := by
  refine ⟨?_, ?_, ?_⟩
  · exact (isValidMove_rejects initialBoard PieceColor.white [] 3 0 0 0).1
      emptyRank (by decide) (by decide)
  · exact (isValidMove_rejects initialBoard PieceColor.white [] 0 0 1 0).2.1
      ⟨PieceType.rook, PieceColor.black⟩ (by decide) (by decide)
  · exact (isValidMove_rejects initialBoard PieceColor.white [] 6 0 7 0).2.2
      ⟨PieceType.pawn, PieceColor.white⟩ ⟨PieceType.rook, PieceColor.white⟩
      (by decide) (by decide) (by decide)

theorem get2_setCell_ne (b : Board) (r c : Int) (v : Option Piece) (i j : Int)
    (h : i ≠ r ∨ j ≠ c) : get2 (setCell b r c v) i j = get2 b i j := by
  unfold setCell
  split
  · rfl
  · next hneg =>
    cases hrw : b.get? r.toNat with
    | none => rfl
    | some rw =>
      have hr0 : 0 ≤ r := by omega
      have hc0 : 0 ≤ c := by omega
      unfold get2 getRow idx
      by_cases hi : i < 0
      · simp [hi]
      · simp only [hi, if_neg, ite_false]
        by_cases hir : i.toNat = r.toNat
        · have hieq : i = r := by omega
          have hjc : j ≠ c := by
            rcases h with h | h
            · exact absurd hieq h
            · exact h
          have hlt : r.toNat < b.length := (List.get?_eq_some.mp hrw).1
          rw [hir, List.get?_set_eq_of_lt _ hlt, hrw, Option.some_bind, Option.some_bind]
          unfold cellAt idx
          by_cases hj : j < 0
          · simp [hj]
          · simp only [hj, ite_false]
            rw [List.get?_set_ne _ _ (by omega : c.toNat ≠ j.toNat)]
        · rw [List.get?_set_ne _ _ (fun e => hir e.symm)]

/-- C4: applying a move is a pure construction of a successor board — both
movers first copy the board (`board.map(row => [...row])`) and write only
the copy, so the successor is a new value and every square other than the
source and destination reads exactly as in the original board, which itself
is unchanged. -/
theorem applyMove_frame (b : Board) (fr fc tr tc i j : Int)
    (h1 : i ≠ fr ∨ j ≠ fc) (h2 : i ≠ tr ∨ j ≠ tc) :
    get2 (applyMove b fr fc tr tc) i j = get2 b i j := by
  unfold applyMove
  rw [get2_setCell_ne _ _ _ _ _ _ h1, get2_setCell_ne _ _ _ _ _ _ h2]

/-- C4 witness: after white plays (6,0)→(5,0) from the opening position, the
untouched square (7,2) reads as in the original board. -/
theorem applyMove_frame_witness :
    get2 (applyMove initialBoard 6 0 5 0) 7 2 = get2 initialBoard 7 2 :=
  applyMove_frame initialBoard 6 0 5 0 7 2 (Or.inl (by decide)) (Or.inl (by decide))

theorem pushCands_of_all_false (b : Board) (cp : PieceColor)
    (avail : List (Int × Int)) (fr fc : Int) :
    ∀ cs : List (Int × Int),
      (∀ t ∈ cs, isValidMove b cp avail fr fc t.1 t.2 = some false) →
      pushCands b cp avail fr fc cs = some [] := by
  intro cs
  induction cs with
  | nil => intro _; rfl
  | cons t ts ih =>
    intro h
    have ht := h t (by simp)
    simp only [pushCands, ht]
    exact ih (fun u hu => h u (by simp [hu]))

theorem pushCands_of_mem_none (b : Board) (cp : PieceColor)
    (avail : List (Int × Int)) (fr fc : Int) :
    ∀ (cs : List (Int × Int)) (t : Int × Int), t ∈ cs →
      isValidMove b cp avail fr fc t.1 t.2 = none →
      pushCands b cp avail fr fc cs = none := by
  intro cs
  induction cs with
  | nil => intro t ht _; cases ht
  | cons u us ih =>
    intro t ht hnone
    rcases List.mem_cons.mp ht with rfl | hmem
    · simp only [pushCands, hnone]
    · cases hu : isValidMove b cp avail fr fc u.1 u.2 with
      | none => simp only [pushCands, hu]
      | some bv =>
        cases bv
        · simp only [pushCands, hu]
          exact ih t hmem hnone
        · simp only [pushCands, hu]
          rw [ih t hmem hnone]
          rfl

theorem isValidMove_color_ne {b : Board} {cp : PieceColor} {fr fc rw piece}
    (avail : List (Int × Int)) (tr tc : Int)
    (hr : getRow b fr = some rw) (hc : cellAt rw fc = some piece)
    (hcol : piece.color ≠ cp) :
    isValidMove b cp avail fr fc tr tc = some false := by
  simp only [isValidMove, hr, hc, hcol, ne_eq, not_false_iff, ite_true]

theorem isValidMove_target_row_oob {b : Board} {cp : PieceColor} {fr fc rw piece tr}
    (avail : List (Int × Int)) (tc : Int)
    (hr : getRow b fr = some rw) (hc : cellAt rw fc = some piece)
    (hcol : piece.color = cp) (htr : getRow b tr = none) :
    isValidMove b cp avail fr fc tr tc = none := by
  simp only [isValidMove, hr, hc, hcol, htr, ne_eq, not_true, ite_false]

theorem getRow_bound {b : Board} {r : Int} {rw} (h : getRow b r = some rw) :
    0 ≤ r ∧ r.toNat < b.length := by
  unfold getRow at h
  exact idx_bound h

theorem movesCore_state_independent (b : Board) (cp : PieceColor)
    (a1 a2 : List (Int × Int)) (row col : Int) (piece : Piece)
    (rw : List (Option Piece)) (hb : b.length = 8)
    (hr : getRow b row = some rw) (hc : cellAt rw col = some piece) :
    movesCore b cp a1 row col piece = movesCore b cp a2 row col piece := by
  obtain ⟨pt, pc⟩ := piece
  cases pt <;> try rfl
  show pushCands b cp a1 row col (rookCands row col) =
       pushCands b cp a2 row col (rookCands row col)
  by_cases hcol : pc = cp
  · have hbnd := getRow_bound hr
    have hl8 : (b.length : Int) = 8 := by simp [hb]
    have hrow8 : row < 8 := by omega
    by_cases hrow : row ≤ 6
    · have hnone : getRow b (row - 7) = none := getRow_neg (by omega)
      have hmem : (row - 7, col) ∈ rookCands row col := by
        unfold rookCands
        refine List.mem_flatMap.mpr ⟨6, by decide, ?_⟩
        have h7 : ((6 : Nat) : Int) + 1 = 7 := by norm_num
        rw [h7]
        simp
      rw [pushCands_of_mem_none b cp a1 row col _ _ hmem
            (isValidMove_target_row_oob a1 col hr hc hcol hnone),
          pushCands_of_mem_none b cp a2 row col _ _ hmem
            (isValidMove_target_row_oob a2 col hr hc hcol hnone)]
    · have hnone : getRow b (row + 7) = none := getRow_oob_high (by omega)
      have hmem : (row + 7, col) ∈ rookCands row col := by
        unfold rookCands
        refine List.mem_flatMap.mpr ⟨6, by decide, ?_⟩
        have h7 : ((6 : Nat) : Int) + 1 = 7 := by norm_num
        rw [h7]
        simp
      rw [pushCands_of_mem_none b cp a1 row col _ _ hmem
            (isValidMove_target_row_oob a1 col hr hc hcol hnone),
          pushCands_of_mem_none b cp a2 row col _ _ hmem
            (isValidMove_target_row_oob a2 col hr hc hcol hnone)]
  · rw [pushCands_of_all_false b cp a1 row col _
          (fun t _ => isValidMove_color_ne a1 t.1 t.2 hr hc hcol),
        pushCands_of_all_false b cp a2 row col _
          (fun t _ => isValidMove_color_ne a2 t.1 t.2 hr hc hcol)]

/-- C8: the available-move computation is deterministic in the position
alone — its outcome (including the thrown-exception outcome for rook
squares) does not depend on the mutable `availableMoves` highlight state,
the only other state it reads; so two computations for the same square with
no move applied in between return identical results. -/
theorem getAvailableMoves_state_independent (b : Board) (cp : PieceColor)
    (a1 a2 : List (Int × Int)) (row col : Int) (hb : b.length = 8) :
    getAvailableMoves b cp a1 row col = getAvailableMoves b cp a2 row col := by
  cases hr : getRow b row with
  | none => rw [getAvailableMoves_row_none hr, getAvailableMoves_row_none hr]
  | some rw =>
    cases hc : cellAt rw col with
    | none => rw [getAvailableMoves_cell_none hr hc, getAvailableMoves_cell_none hr hc]
    | some piece =>
      rw [getAvailableMoves_piece hr hc, getAvailableMoves_piece hr hc,
          movesCore_state_independent b cp a1 a2 row col piece rw hb hr hc]

/-- C8 witness: on the opening board the computation for the black rook
square (0,0) gives the same result whether the highlight state holds (0,0)
or is empty. -/
theorem getAvailableMoves_state_independent_witness :
    getAvailableMoves initialBoard PieceColor.white [(0, 0)] 0 0 =
      getAvailableMoves initialBoard PieceColor.white [] 0 0 :=
  getAvailableMoves_state_independent initialBoard PieceColor.white
    [(0, 0)] [] 0 0 (by decide)
